import Mathlib

/-!
Verification development for the `emit` structured-event logging client
(Seq collector). The definitions below are a shallow embedding of
`src/collectors/seq/mod.rs` and `src/events.rs`: Rust `String`s become Lean
`String`s, `str::len()` (UTF-8 byte length) becomes `utf8Len`, the hyper
transport is abstracted as an oracle `tr : Nat → Bool` giving the outcome of
the k-th `send_batch` call, and `Result<(), Box<Error>>` becomes a `Bool`
success flag paired with the list of bodies passed to the transport.
-/

namespace Emit

/-- UTF-8 encoded byte count of one character (RFC 3629 ranges), mirroring
how Rust counts a char inside `str::len()`. -/
def charBytes (c : Char) : Nat :=
  if c.toNat < 0x80 then 1
  else if c.toNat < 0x800 then 2
  else if c.toNat < 0x10000 then 3
  else 4

/-- UTF-8 byte length of a character list. -/
def utf8ListLen : List Char → Nat
  | [] => 0
  | c :: cs => charBytes c + utf8ListLen cs

/-- UTF-8 byte length of a string: the Lean embedding of Rust `String::len()`. -/
def utf8Len (s : String) : Nat := utf8ListLen s.data

theorem utf8ListLen_append (a b : List Char) :
    utf8ListLen (a ++ b) = utf8ListLen a + utf8ListLen b := by
  induction a with
  | nil => simp [utf8ListLen]
  | cons c cs ih => simp [utf8ListLen, ih, Nat.add_assoc]

theorem string_data_append (s t : String) : (s ++ t).data = s.data ++ t.data := rfl

theorem utf8Len_append (s t : String) : utf8Len (s ++ t) = utf8Len s + utf8Len t := by
  simp [utf8Len, string_data_append, utf8ListLen_append]

theorem one_le_charBytes (c : Char) : 1 ≤ charBytes c := by
  unfold charBytes
  repeat' split
  all_goals omega

theorem length_le_utf8ListLen (l : List Char) : l.length ≤ utf8ListLen l := by
  induction l with
  | nil => simp [utf8ListLen]
  | cons c cs ih =>
    have := one_le_charBytes c
    simp only [List.length_cons, utf8ListLen]
    omega

/-- Lowercase hexadecimal digit, as emitted by the JSON escaper. -/
def hexDigit (n : Nat) : Char :=
  if n < 10 then Char.ofNat (48 + n) else Char.ofNat (87 + n)

/-- JSON escape of one character, per serde_json string serialization:
quote and backslash escaped, named control escapes, other control characters
as lowercase u-escapes, everything else verbatim. -/
def escapeChar (c : Char) : String :=
  if c = '"' then "\\\""
  else if c = '\\' then "\\\\"
  else if c = Char.ofNat 0x08 then "\\b"
  else if c = Char.ofNat 0x09 then "\\t"
  else if c = Char.ofNat 0x0A then "\\n"
  else if c = Char.ofNat 0x0C then "\\f"
  else if c = Char.ofNat 0x0D then "\\r"
  else if c.toNat < 0x20 then
    String.mk ['\\', 'u', '0', '0', hexDigit (c.toNat / 16), hexDigit (c.toNat % 16)]
  else String.mk [c]

/-- Embedding of `serde_json::to_string` applied to a string value: the
escaped text wrapped in double quotes. -/
def jsonEscape (s : String) : String :=
  "\"" ++ String.join (s.data.map escapeChar) ++ "\""

/-- Severity ordinal carried by events; embedding of `log::LogLevel`
(the `log` crate enum: Error = 1 through Trace = 5). -/
inductive LogLevel
  | error
  | warn
  | info
  | debug
  | trace
deriving DecidableEq

/-- The numeric discriminant of `log::LogLevel`, i.e. Rust `level as usize`. -/
def LogLevel.toOrd : LogLevel → Nat
  | .error => 1
  | .warn => 2
  | .info => 3
  | .debug => 4
  | .trace => 5

/-- Modelled from the spec: `templates::MessageTemplate` (module `templates`
is referenced by the source but its file is not in `src/`); per the spec it
carries immutable text containing named placeholders, exposed by `text()`. -/
structure MessageTemplate where
  text : String
deriving DecidableEq

/-- A UTC timestamp at second precision, the part of `chrono::DateTime<UTC>`
observable through the `%FT%TZ` wire format used by the collector. -/
structure Timestamp where
  year : Nat
  month : Nat
  day : Nat
  hour : Nat
  minute : Nat
  second : Nat
deriving DecidableEq

/-- Zero-pad a number to two digits, as chrono does for `%m %d %H %M %S`. -/
def pad2 (n : Nat) : String :=
  if n < 10 then "0" ++ toString n else toString n

/-- Zero-pad a year to four digits, as chrono does for `%Y` inside `%F`. -/
def pad4 (n : Nat) : String :=
  if n < 10 then "000" ++ toString n
  else if n < 100 then "00" ++ toString n
  else if n < 1000 then "0" ++ toString n
  else toString n

/-- Embedding of `timestamp.format("%FT%TZ")` from chrono: ISO-8601 UTC at
second precision with a trailing Z and no fractional seconds. -/
def formatTimestamp (t : Timestamp) : String :=
  pad4 t.year ++ "-" ++ pad2 t.month ++ "-" ++ pad2 t.day ++ "T" ++
    pad2 t.hour ++ ":" ++ pad2 t.minute ++ ":" ++ pad2 t.second ++ "Z"

/-- Embedding of `events::Event` (`src/events.rs` lines 15-20). The
`BTreeMap<&str, String>` of properties becomes an association list in its
iteration order; the BTreeMap representation invariant (keys strictly
increasing) is taken as a hypothesis where a claim needs it. -/
structure Event where
  timestamp : Timestamp
  level : LogLevel
  message_template : MessageTemplate
  properties : List (String × String)
deriving DecidableEq

/-- `SEQ_LEVEL_NAMES` (`mod.rs` line 18): the fixed 6-entry level table;
index 0 is the defensive rendering for the reserved OFF ordinal. -/
def SEQ_LEVEL_NAMES : List String :=
  ["Fatal", "Error", "Warning", "Information", "Debug", "Verbose"]

/-- `to_seq_level` (`mod.rs` lines 137-139): the unchecked array index
`SEQ_LEVEL_NAMES[level as usize]`; embedded with `getD` whose default is
proven unreachable in the safety theorem. -/
def to_seq_level (level : LogLevel) : String :=
  SEQ_LEVEL_NAMES.getD level.toOrd ""

/-- One rendered property, `write!(body, "\x7b:?\x7d", ...)`-style: the raw key in
quotes, a colon, then the pre-serialized JSON value verbatim
(`mod.rs` line 117). -/
def renderProp (nv : String × String) : String :=
  "\"" ++ nv.1 ++ "\":" ++ nv.2

/-- The head of the normal payload up to and including the opening brace of
the Properties object (`mod.rs` lines 103-106). -/
def payloadHead (e : Event) : String :=
  "\x7b\"Timestamp\":\"" ++ formatTimestamp e.timestamp ++ "\",\"Level\":\"" ++
    to_seq_level e.level ++ "\",\"MessageTemplate\":" ++
    jsonEscape e.message_template.text ++ ",\"Properties\":\x7b"

/-- The property loop of `format_payload` (`mod.rs` lines 108-118): a fold
carrying the body so far and the `first` flag. -/
def propsLoop (ps : List (String × String)) (body : String) : String :=
  (ps.foldl
    (fun acc nv =>
      ((if acc.2 then acc.1 else acc.1 ++ ",") ++ renderProp nv, false))
    (body, true)).1

/-- `format_payload` (`mod.rs` lines 102-122). -/
def format_payload (e : Event) : String :=
  propsLoop e.properties (payloadHead e) ++ "\x7d\x7d"

/-- The `initial` binding of `format_oversize_placeholder` (`mod.rs` lines
125-129): if the template text's byte length exceeds 64, the first 64
characters, else the whole text. -/
def placeholderInitial (e : Event) : String :=
  if 64 < utf8Len e.message_template.text then
    String.mk (e.message_template.text.data.take 64)
  else e.message_template.text

/-- `format_oversize_placeholder` (`mod.rs` lines 124-135). Note the Rust
format string writes the escaped braces around `initial`, so the
MessageTemplate field is the literal template text
`(Event too large) \x7binitial\x7d...`; the truncated text itself only appears as
the JSON-escaped value of the `initial` property. -/
def format_oversize_placeholder (e : Event) : String :=
  "\x7b\"Timestamp\":\"" ++ formatTimestamp e.timestamp ++ "\",\"Level\":\"" ++
    to_seq_level e.level ++
    "\",\"MessageTemplate\":\"(Event too large) \x7binitial\x7d...\",\"Properties\":\x7b\"target\":\"emit::collectors::seq\",\"initial\":" ++
    jsonEscape (placeholderInitial e) ++ "\x7d\x7d"

/-- `DEFAULT_EVENT_BODY_LIMIT_BYTES` (`mod.rs` line 10). -/
def DEFAULT_EVENT_BODY_LIMIT_BYTES : Nat := 1024 * 256

/-- `DEFAULT_BATCH_LIMIT_BYTES` (`mod.rs` line 11). -/
def DEFAULT_BATCH_LIMIT_BYTES : Nat := 1024 * 1024 * 10

/-- `LOCAL_SERVER_URL` (`mod.rs` line 12). -/
def LOCAL_SERVER_URL : String := "http://localhost:5341/"

/-- The `SeqCollector` configuration struct (`mod.rs` lines 20-25). -/
structure SeqCollector where
  api_key : Option String
  event_body_limit_bytes : Nat
  batch_limit_bytes : Nat
  endpoint : String
deriving DecidableEq

/-- `SeqCollector::new` (`mod.rs` lines 28-35): the endpoint is
`format!("\x7b\x7dapi/events/raw/", server_url)`, i.e. plain concatenation. -/
def SeqCollector.new (server_url : String) (api_key : Option String)
    (event_body_limit_bytes batch_limit_bytes : Nat) : SeqCollector :=
  { api_key := api_key
    event_body_limit_bytes := event_body_limit_bytes
    batch_limit_bytes := batch_limit_bytes
    endpoint := server_url ++ "api/events/raw/" }

/-- `SeqCollector::new_local` (`mod.rs` lines 37-39). -/
def SeqCollector.new_local : SeqCollector :=
  SeqCollector.new LOCAL_SERVER_URL none
    DEFAULT_EVENT_BODY_LIMIT_BYTES DEFAULT_BATCH_LIMIT_BYTES

/-- `HEADER` (`mod.rs` line 59). -/
def HEADER : String := "\x7b\"Events\":["

/-- `HEADER_LEN` (`mod.rs` line 60). -/
def HEADER_LEN : Nat := 11

/-- `FOOTER` (`mod.rs` line 61). -/
def FOOTER : String := "]\x7d"

/-- `FOOTER_LEN` (`mod.rs` line 62). -/
def FOOTER_LEN : Nat := 2

/-- The per-event oversize handling inlined at the top of the dispatch loop
(`mod.rs` lines 71-78): the normal payload when it fits the event body
limit, else the placeholder when that fits, else `none` (the event is
dropped with only a diagnostic log line). -/
def formatEvent (c : SeqCollector) (e : Event) : Option String :=
  let payload := format_payload e
  if utf8Len payload > c.event_body_limit_bytes then
    let placeholder := format_oversize_placeholder e
    if utf8Len placeholder > c.event_body_limit_bytes then none
    else some placeholder
  else some payload

/-- The loop of `Collector::dispatch` for `SeqCollector` (`mod.rs` lines
65-99), with the transport abstracted as an oracle `tr` giving the k-th
send's outcome. State: `next` is the buffer, `count` the running byte
counter, `delim` the delimiter, `k` the number of sends attempted so far,
`sent` the bodies passed to `send_batch` so far. Returns all bodies passed
to the transport together with the overall success flag. -/
def dispatchLoop (c : SeqCollector) (tr : Nat → Bool) (next : String)
    (count : Nat) (delim : String) (k : Nat) (sent : List String) :
    List Event → List String × Bool
  | [] => (sent ++ [next ++ FOOTER], tr k)
  | e :: rest =>
    match formatEvent c e with
    | none => dispatchLoop c tr next count delim k sent rest
    | some payload =>
      if delim ≠ "" ∧ count + utf8Len delim + utf8Len payload > c.batch_limit_bytes then
        if tr k then
          dispatchLoop c tr (HEADER ++ payload)
            (HEADER_LEN + FOOTER_LEN + utf8Len payload) "," (k + 1)
            (sent ++ [next ++ FOOTER]) rest
        else (sent ++ [next ++ FOOTER], false)
      else
        dispatchLoop c tr (next ++ delim ++ payload)
          (count + utf8Len delim + utf8Len payload) "," k sent rest

/-- `dispatch` (`mod.rs` lines 65-99): runs the loop from the initial state
`next = HEADER`, `count = HEADER_LEN + FOOTER_LEN`, `delim = ""`. -/
def dispatch (c : SeqCollector) (tr : Nat → Bool) (events : List Event) :
    List String × Bool :=
  dispatchLoop c tr HEADER (HEADER_LEN + FOOTER_LEN) "" 0 [] events

/-- The fragments dispatch actually batches: the input events mapped through
the oversize handling, dropped events removed. -/
def payloadsOf (c : SeqCollector) (events : List Event) : List String :=
  events.filterMap (formatEvent c)

/-- Comma-join of fragments, describing the content of a batch buffer. -/
def joinComma : List String → String
  | [] => ""
  | [p] => p
  | p :: ps => p ++ "," ++ joinComma ps

/-- The buffer holding the fragments `cur`, before the footer is written. -/
def renderOpen (cur : List String) : String := HEADER ++ joinComma cur

/-- The finished batch body holding the fragments `cur`. -/
def renderBatch (cur : List String) : String := renderOpen cur ++ FOOTER

/-- Byte size of the finished batch body holding the fragments `cur`. -/
def bodySize (cur : List String) : Nat := utf8Len (renderBatch cur)

/-- The delimiter in force when the buffer holds the fragments `cur`. -/
def delimOf (cur : List String) : String := if cur = [] then "" else ","

/-- Abstract batcher: groups the fragment stream into batches exactly as the
dispatch loop does, flushing only a nonempty buffer whose size would
exceed the limit after appending the next fragment plus delimiter. -/
def batchAcc (limit : Nat) : List String → List String → List (List String)
  | cur, [] => [cur]
  | cur, p :: ps =>
    if cur ≠ [] ∧ bodySize cur + 1 + utf8Len p > limit then
      cur :: batchAcc limit [p] ps
    else batchAcc limit (cur ++ [p]) ps

/-- The batches (as fragment lists) dispatch forms from a fragment stream. -/
def batchFragments (limit : Nat) (ps : List String) : List (List String) :=
  batchAcc limit [] ps

/-- The transport-facing outcome of sending the batches `bs` in order
starting at send index `k` with `sent` already attempted: each batch body is
attempted in turn, the first failure stops the run (the final batch's send
result is returned as the overall flag). -/
def outcome (tr : Nat → Bool) : Nat → List String → List (List String) →
    List String × Bool
  | _, sent, [] => (sent, true)
  | k, sent, [b] => (sent ++ [renderBatch b], tr k)
  | k, sent, b :: bs =>
    if tr k then outcome tr (k + 1) (sent ++ [renderBatch b]) bs
    else (sent ++ [renderBatch b], false)

/-- The list of bodies dispatch would pass to the transport when every send
succeeds. -/
def allBatches (c : SeqCollector) (events : List Event) : List String :=
  (batchFragments c.batch_limit_bytes (payloadsOf c events)).map renderBatch

/-- The tail of the rendered Properties object: a comma before each rendered
pair. -/
def commaJoinTail : List (String × String) → String
  | [] => ""
  | nv :: rest => "," ++ renderProp nv ++ commaJoinTail rest

/-- The rendered Properties content: the pairs in list order, comma
separated, describing the loop of `format_payload` non-operationally. -/
def specRenderProps : List (String × String) → String
  | [] => ""
  | nv :: rest => renderProp nv ++ commaJoinTail rest

/-- The running-counter invariant of the dispatch loop: `count` is the byte
length of the buffer plus the reserved footer cost. -/
def countInv (next : String) (count : Nat) : Prop :=
  count = utf8Len next + FOOTER_LEN

/-- The placeholder fragment as the claim words it: the truncated template
text inlined after the marker inside MessageTemplate. Stated only to be
compared with `format_oversize_placeholder`, which embeds the source. -/
def placeholderSpecClaimed (e : Event) : String :=
  "\x7b\"Timestamp\":\"" ++ formatTimestamp e.timestamp ++ "\",\"Level\":\"" ++
    to_seq_level e.level ++ "\",\"MessageTemplate\":\"(Event too large) " ++
    placeholderInitial e ++
    "...\",\"Properties\":\x7b\"target\":\"emit::collectors::seq\",\"initial\":" ++
    jsonEscape (placeholderInitial e) ++ "\x7d\x7d"

/-- The concrete event of the source's own test `events_are_formatted`:
2014-07-08 09:10:11 UTC, Warning, template with one `number` property whose
captured JSON value is `42`. -/
def evC3 : Event :=
  { timestamp := ⟨2014, 7, 8, 9, 10, 11⟩
    level := .warn
    message_template := ⟨"The number is {number}"⟩
    properties := [("number", "42")] }

/-- A 202-byte pre-serialized JSON string value, used to build an event
whose normal fragment is oversize. -/
def longVal : String := "\"" ++ String.mk (List.replicate 200 'a') ++ "\""

/-- An event whose normal fragment is 303 bytes but whose placeholder is
only 172 bytes. -/
def evBig : Event :=
  { timestamp := ⟨2014, 7, 8, 9, 10, 11⟩
    level := .warn
    message_template := ⟨"Hi {x}"⟩
    properties := [("x", longVal)] }

/-- A collector whose batch limit (12 bytes) is below even the empty batch
body. -/
def cTiny : SeqCollector :=
  SeqCollector.new LOCAL_SERVER_URL none DEFAULT_EVENT_BODY_LIMIT_BYTES 12

/-- A collector whose batch limit (150 bytes) holds one `evC3` fragment but
not two. -/
def cSplit : SeqCollector := SeqCollector.new LOCAL_SERVER_URL none 1000 150

/-- A collector whose event body limit (150 bytes) is exceeded by both the
normal fragment and the placeholder of `evBig`, but not by `evC3`. -/
def cDrop : SeqCollector :=
  SeqCollector.new LOCAL_SERVER_URL none 150 DEFAULT_BATCH_LIMIT_BYTES

/-- A collector whose event body limit (250 bytes) is exceeded by the
normal fragment of `evBig` but not by its placeholder. -/
def cBig : SeqCollector :=
  SeqCollector.new LOCAL_SERVER_URL none 250 DEFAULT_BATCH_LIMIT_BYTES

theorem strAppend_assoc (a b c : String) : a ++ b ++ c = a ++ (b ++ c) := by
  cases a; cases b; cases c
  exact congrArg String.mk (List.append_assoc _ _ _)

theorem utf8Len_HEADER : utf8Len HEADER = HEADER_LEN := by decide

theorem utf8Len_FOOTER : utf8Len FOOTER = FOOTER_LEN := by decide

theorem delimOf_cons (a : String) (l : List String) : delimOf (a :: l) = "," := by
  simp [delimOf]

theorem joinComma_cons_cons (a b : String) (l : List String) :
    joinComma (a :: b :: l) = a ++ "," ++ joinComma (b :: l) := rfl

theorem joinComma_append_singleton (cur : List String) (p : String) :
    joinComma (cur ++ [p]) = joinComma cur ++ delimOf cur ++ p := by
  induction cur with
  | nil => simp [joinComma, delimOf, String.empty_append]
  | cons a cur ih =>
    cases cur with
    | nil => simp [joinComma, delimOf]
    | cons b cur2 =>
      calc joinComma ((a :: b :: cur2) ++ [p])
          = a ++ "," ++ joinComma ((b :: cur2) ++ [p]) :=
            joinComma_cons_cons a b (cur2 ++ [p])
        _ = a ++ "," ++ (joinComma (b :: cur2) ++ delimOf (b :: cur2) ++ p) := by
            rw [ih]
        _ = joinComma (a :: b :: cur2) ++ delimOf (a :: b :: cur2) ++ p := by
            rw [delimOf_cons, delimOf_cons, joinComma_cons_cons]
            simp [strAppend_assoc]

theorem renderOpen_nil : renderOpen [] = HEADER := by
  simp [renderOpen, joinComma, String.append_empty]

theorem renderOpen_singleton (p : String) : renderOpen [p] = HEADER ++ p := rfl

theorem renderOpen_append (cur : List String) (p : String) :
    renderOpen (cur ++ [p]) = renderOpen cur ++ delimOf cur ++ p := by
  simp [renderOpen, joinComma_append_singleton, strAppend_assoc]

theorem bodySize_nil : bodySize [] = HEADER_LEN + FOOTER_LEN := by decide

theorem bodySize_append (cur : List String) (p : String) :
    bodySize (cur ++ [p]) = bodySize cur + utf8Len (delimOf cur) + utf8Len p := by
  simp only [bodySize, renderBatch, renderOpen_append, utf8Len_append]
  omega

theorem utf8Len_empty : utf8Len "" = 0 := rfl

theorem utf8Len_comma : utf8Len "," = 1 := by decide

theorem bodySize_singleton (p : String) :
    bodySize [p] = HEADER_LEN + FOOTER_LEN + utf8Len p := by
  have h := bodySize_append [] p
  simp only [List.nil_append, bodySize_nil, delimOf, ite_true, utf8Len_empty] at h
  omega

theorem delimOf_nil : delimOf [] = "" := rfl

theorem delimOf_ne_nil {cur : List String} (h : cur ≠ []) : delimOf cur = "," := by
  simp [delimOf, h]

theorem batchAcc_nil (limit : Nat) (cur : List String) :
    batchAcc limit cur [] = [cur] := rfl

theorem batchAcc_cons (limit : Nat) (cur : List String) (p : String)
    (ps : List String) :
    batchAcc limit cur (p :: ps) =
      if cur ≠ [] ∧ bodySize cur + 1 + utf8Len p > limit then
        cur :: batchAcc limit [p] ps
      else batchAcc limit (cur ++ [p]) ps := rfl

theorem batchAcc_ne_nil (limit : Nat) (ps : List String) :
    ∀ cur, batchAcc limit cur ps ≠ [] := by
  induction ps with
  | nil => intro cur; simp [batchAcc]
  | cons p ps ih =>
    intro cur
    unfold batchAcc
    split
    · simp
    · exact ih (cur ++ [p])

theorem outcome_nil (tr : Nat → Bool) (k : Nat) (sent : List String) :
    outcome tr k sent [] = (sent, true) := rfl

theorem outcome_single (tr : Nat → Bool) (k : Nat) (sent : List String)
    (b : List String) :
    outcome tr k sent [b] = (sent ++ [renderBatch b], tr k) := rfl

theorem outcome_cons_cons (tr : Nat → Bool) (k : Nat) (sent : List String)
    (b b2 : List String) (bs : List (List String)) :
    outcome tr k sent (b :: b2 :: bs) =
      if tr k then outcome tr (k + 1) (sent ++ [renderBatch b]) (b2 :: bs)
      else (sent ++ [renderBatch b], false) := rfl

theorem payloadsOf_cons_none {c : SeqCollector} {e : Event}
    (h : formatEvent c e = none) (rest : List Event) :
    payloadsOf c (e :: rest) = payloadsOf c rest := by
  simp [payloadsOf, List.filterMap_cons, h]

theorem payloadsOf_cons_some {c : SeqCollector} {e : Event} {p : String}
    (h : formatEvent c e = some p) (rest : List Event) :
    payloadsOf c (e :: rest) = p :: payloadsOf c rest := by
  simp [payloadsOf, List.filterMap_cons, h]

/-- The dispatch loop started at the state describing a buffer holding the
fragments `cur` behaves exactly like sending, in order, the batches the
abstract batcher forms from the fragments of the remaining events. -/
theorem dispatchLoop_eq_outcome (c : SeqCollector) (tr : Nat → Bool)
    (evs : List Event) :
    ∀ cur k sent,
      dispatchLoop c tr (renderOpen cur) (bodySize cur) (delimOf cur) k sent evs =
        outcome tr k sent (batchAcc c.batch_limit_bytes cur (payloadsOf c evs)) := by
  induction evs with
  | nil =>
    intro cur k sent
    show (sent ++ [renderOpen cur ++ FOOTER], tr k) = _
    simp [payloadsOf, batchAcc, outcome_single, renderBatch]
  | cons e rest ih =>
    intro cur k sent
    cases hfe : formatEvent c e with
    | none =>
      show dispatchLoop c tr (renderOpen cur) (bodySize cur) (delimOf cur) k sent
          (e :: rest) = _
      rw [payloadsOf_cons_none hfe]
      simpa only [dispatchLoop, hfe] using ih cur k sent
    | some p =>
      rw [payloadsOf_cons_some hfe]
      by_cases hcur : cur = []
      · subst hcur
        have hguard : ¬(delimOf [] ≠ "" ∧
            bodySize [] + utf8Len (delimOf []) + utf8Len p > c.batch_limit_bytes) := by
          simp [delimOf]
        have habs : ¬(([] : List String) ≠ [] ∧
            bodySize [] + 1 + utf8Len p > c.batch_limit_bytes) := by simp
        show dispatchLoop c tr (renderOpen []) (bodySize []) (delimOf []) k sent
            (e :: rest) = _
        rw [show batchAcc c.batch_limit_bytes [] (p :: payloadsOf c rest) =
            batchAcc c.batch_limit_bytes [p] (payloadsOf c rest) by
          rw [batchAcc_cons, if_neg habs]; rfl]
        simp only [dispatchLoop, hfe, if_neg hguard]
        have h1 : renderOpen [] ++ delimOf [] ++ p = renderOpen [p] := by
          have := renderOpen_append [] p
          simpa using this.symm
        have h2 : bodySize [] + utf8Len (delimOf []) + utf8Len p = bodySize [p] := by
          have := bodySize_append [] p
          simpa using this.symm
        rw [h1, h2, show ("," : String) = delimOf [p] from rfl]
        exact ih [p] k sent
      · have hdel : delimOf cur = "," := delimOf_ne_nil hcur
        by_cases hg : bodySize cur + 1 + utf8Len p > c.batch_limit_bytes
        · -- flush: the buffer is nonempty and the append would overflow
          have hguard : delimOf cur ≠ "" ∧
              bodySize cur + utf8Len (delimOf cur) + utf8Len p > c.batch_limit_bytes := by
            rw [hdel]
            exact ⟨by decide, by rw [utf8Len_comma]; omega⟩
          have habs : cur ≠ [] ∧ bodySize cur + 1 + utf8Len p > c.batch_limit_bytes :=
            ⟨hcur, hg⟩
          show dispatchLoop c tr (renderOpen cur) (bodySize cur) (delimOf cur) k sent
              (e :: rest) = _
          rw [show batchAcc c.batch_limit_bytes cur (p :: payloadsOf c rest) =
              cur :: batchAcc c.batch_limit_bytes [p] (payloadsOf c rest) by
            rw [batchAcc_cons, if_pos habs]]
          simp only [dispatchLoop, hfe, if_pos hguard]
          obtain ⟨b2, bs, hbs⟩ :
              ∃ b2 bs, batchAcc c.batch_limit_bytes [p] (payloadsOf c rest) = b2 :: bs := by
            cases hb : batchAcc c.batch_limit_bytes [p] (payloadsOf c rest) with
            | nil => exact absurd hb (batchAcc_ne_nil _ _ _)
            | cons b2 bs => exact ⟨b2, bs, rfl⟩
          rw [hbs, outcome_cons_cons]
          cases htr : tr k with
          | false => simp [renderBatch]
          | true =>
            simp only [if_pos rfl, ite_true]
            have h1 : HEADER ++ p = renderOpen [p] := rfl
            have h2 : HEADER_LEN + FOOTER_LEN + utf8Len p = bodySize [p] :=
              (bodySize_singleton p).symm
            rw [h1, h2, show ("," : String) = delimOf [p] from rfl]
            rw [show sent ++ [renderOpen cur ++ FOOTER] = sent ++ [renderBatch cur]
              from rfl]
            rw [ih [p] (k + 1) (sent ++ [renderBatch cur]), hbs]
        · -- append: either first event of the batch or it still fits
          have hguard : ¬(delimOf cur ≠ "" ∧
              bodySize cur + utf8Len (delimOf cur) + utf8Len p > c.batch_limit_bytes) := by
            rw [hdel, utf8Len_comma]
            intro hc
            omega
          have habs : ¬(cur ≠ [] ∧ bodySize cur + 1 + utf8Len p > c.batch_limit_bytes) := by
            intro hc
            omega
          show dispatchLoop c tr (renderOpen cur) (bodySize cur) (delimOf cur) k sent
              (e :: rest) = _
          rw [show batchAcc c.batch_limit_bytes cur (p :: payloadsOf c rest) =
              batchAcc c.batch_limit_bytes (cur ++ [p]) (payloadsOf c rest) by
            rw [batchAcc_cons, if_neg habs]]
          simp only [dispatchLoop, hfe, if_neg hguard]
          rw [show renderOpen cur ++ delimOf cur ++ p = renderOpen (cur ++ [p]) from
            (renderOpen_append cur p).symm]
          rw [show bodySize cur + utf8Len (delimOf cur) + utf8Len p =
              bodySize (cur ++ [p]) from (bodySize_append cur p).symm]
          rw [show ("," : String) = delimOf (cur ++ [p]) by
            rw [delimOf_ne_nil (by simp : cur ++ [p] ≠ [])]]
          exact ih (cur ++ [p]) k sent

/-- `dispatch` refines the abstract batcher: the bodies it passes to the
transport and its success flag are exactly the outcome of sending the
batches formed from the surviving fragments. -/
theorem dispatch_eq_outcome (c : SeqCollector) (tr : Nat → Bool)
    (evs : List Event) :
    dispatch c tr evs =
      outcome tr 0 [] (batchFragments c.batch_limit_bytes (payloadsOf c evs)) := by
  have h := dispatchLoop_eq_outcome c tr evs [] 0 []
  rw [renderOpen_nil, bodySize_nil, delimOf_nil] at h
  exact h

theorem outcome_mem (tr : Nat → Bool) :
    ∀ (bs : List (List String)) (k : Nat) (sent : List String) (body : String),
      body ∈ (outcome tr k sent bs).1 →
        body ∈ sent ∨ ∃ b ∈ bs, body = renderBatch b := by
  intro bs
  induction bs with
  | nil =>
    intro k sent body h
    exact Or.inl h
  | cons b tail ih =>
    intro k sent body h
    cases tail with
    | nil =>
      rw [outcome_single] at h
      rcases List.mem_append.1 h with h1 | h1
      · exact Or.inl h1
      · exact Or.inr ⟨b, by simp, by simpa using h1⟩
    | cons b2 bs2 =>
      rw [outcome_cons_cons] at h
      by_cases htr : tr k = true
      · rw [if_pos htr] at h
        rcases ih (k + 1) (sent ++ [renderBatch b]) body h with h1 | h1
        · rcases List.mem_append.1 h1 with h2 | h2
          · exact Or.inl h2
          · exact Or.inr ⟨b, by simp, by simpa using h2⟩
        · rcases h1 with ⟨b3, hb3, hbody⟩
          exact Or.inr ⟨b3, by simp [hb3], hbody⟩
      · rw [if_neg htr] at h
        rcases List.mem_append.1 h with h1 | h1
        · exact Or.inl h1
        · exact Or.inr ⟨b, by simp, by simpa using h1⟩

theorem outcome_all_true (tr : Nat → Bool) :
    ∀ (bs : List (List String)) (k : Nat) (sent : List String),
      (∀ i, i < bs.length → tr (k + i) = true) →
        outcome tr k sent bs = (sent ++ bs.map renderBatch, true) := by
  intro bs
  induction bs with
  | nil =>
    intro k sent _
    simp [outcome_nil]
  | cons b tail ih =>
    intro k sent h
    have htr : tr k = true := by simpa using h 0 (by simp)
    cases tail with
    | nil => simp [outcome_single, htr]
    | cons b2 bs2 =>
      rw [outcome_cons_cons, if_pos htr,
        ih (k + 1) (sent ++ [renderBatch b]) (by
          intro i hi
          have := h (i + 1) (by simpa using Nat.succ_lt_succ hi)
          simpa [Nat.add_assoc, Nat.add_comm 1 i] using this)]
      simp

theorem outcome_first_false (tr : Nat → Bool) :
    ∀ (bs : List (List String)) (k : Nat) (sent : List String) (j : Nat),
      j < bs.length → tr (k + j) = false → (∀ i, i < j → tr (k + i) = true) →
        outcome tr k sent bs = (sent ++ (bs.map renderBatch).take (j + 1), false) := by
  intro bs
  induction bs with
  | nil =>
    intro k sent j hj
    simp at hj
  | cons b tail ih =>
    intro k sent j hj hfail hpre
    cases tail with
    | nil =>
      have hj0 : j = 0 := by simpa using Nat.lt_one_iff.1 (by simpa using hj)
      subst hj0
      rw [outcome_single]
      simp only [Nat.add_zero] at hfail
      simp [hfail]
    | cons b2 bs2 =>
      cases j with
      | zero =>
        simp only [Nat.add_zero] at hfail
        rw [outcome_cons_cons, if_neg (by simp [hfail])]
        simp
      | succ j2 =>
        have htr : tr k = true := by simpa using hpre 0 (Nat.succ_pos j2)
        rw [outcome_cons_cons, if_pos htr,
          ih (k + 1) (sent ++ [renderBatch b]) j2
            (by simpa using Nat.lt_of_succ_lt_succ hj)
            (by simpa [Nat.add_assoc, Nat.add_comm 1 j2] using hfail)
            (by
              intro i hi
              have := hpre (i + 1) (Nat.succ_lt_succ hi)
              simpa [Nat.add_assoc, Nat.add_comm 1 i] using this)]
        simp [List.take_succ_cons]

theorem batchAcc_flatten (limit : Nat) :
    ∀ (ps : List String) (cur : List String),
      (batchAcc limit cur ps).flatten = cur ++ ps := by
  intro ps
  induction ps with
  | nil =>
    intro cur
    simp [batchAcc_nil]
  | cons p ps ih =>
    intro cur
    rw [batchAcc_cons]
    split
    · simp [ih [p]]
    · simp [ih (cur ++ [p])]

theorem batchAcc_size_bound (limit : Nat) :
    ∀ (ps : List String) (cur : List String),
      (2 ≤ cur.length → bodySize cur ≤ limit) →
        ∀ b ∈ batchAcc limit cur ps, 2 ≤ b.length → bodySize b ≤ limit := by
  intro ps
  induction ps with
  | nil =>
    intro cur hinv b hb
    rw [batchAcc_nil] at hb
    simp only [List.mem_singleton] at hb
    subst hb
    exact hinv
  | cons p ps ih =>
    intro cur hinv b hb
    rw [batchAcc_cons] at hb
    by_cases hg : cur ≠ [] ∧ bodySize cur + 1 + utf8Len p > limit
    · rw [if_pos hg] at hb
      rcases List.mem_cons.1 hb with hb1 | hb1
      · subst hb1
        exact hinv
      · exact ih [p] (by simp) b hb1
    · rw [if_neg hg] at hb
      refine ih (cur ++ [p]) ?_ b hb
      intro hlen
      by_cases hcur : cur = []
      · subst hcur
        simp at hlen
      · have hfit : bodySize cur + 1 + utf8Len p ≤ limit := by
          rcases not_and_or.1 hg with h1 | h1
          · exact absurd hcur (by simpa using h1)
          · omega
        rw [bodySize_append, delimOf_ne_nil hcur, utf8Len_comma]
        omega

theorem batchAcc_mem_ne_nil (limit : Nat) :
    ∀ (ps : List String) (cur : List String), cur ≠ [] →
      ∀ b ∈ batchAcc limit cur ps, b ≠ [] := by
  intro ps
  induction ps with
  | nil =>
    intro cur hcur b hb
    rw [batchAcc_nil] at hb
    have : b = cur := by simpa using hb
    exact this ▸ hcur
  | cons p ps ih =>
    intro cur hcur b hb
    rw [batchAcc_cons] at hb
    split at hb
    · rcases List.mem_cons.1 hb with hb1 | hb1
      · exact hb1 ▸ hcur
      · exact ih [p] (by simp) b hb1
    · exact ih (cur ++ [p]) (by simp) b hb

theorem batchFragments_nil (limit : Nat) : batchFragments limit [] = [[]] := rfl

theorem batchFragments_mem_ne_nil (limit : Nat) (ps : List String)
    (hps : ps ≠ []) : ∀ b ∈ batchFragments limit ps, b ≠ [] := by
  cases ps with
  | nil => exact absurd rfl hps
  | cons p ps2 =>
    intro b hb
    rw [batchFragments, batchAcc_cons, if_neg (by simp)] at hb
    exact batchAcc_mem_ne_nil limit ps2 ([] ++ [p]) (by simp) b hb

theorem propsLoop_false (ps : List (String × String)) :
    ∀ acc : String,
      (List.foldl
        (fun acc nv => ((if acc.2 then acc.1 else acc.1 ++ ",") ++ renderProp nv, false))
        (acc, false) ps).1 = acc ++ commaJoinTail ps := by
  induction ps with
  | nil =>
    intro acc
    simp [commaJoinTail, String.append_empty]
  | cons nv rest ih =>
    intro acc
    simp only [List.foldl_cons, if_neg (by simp : ¬((acc, false).2 = true))]
    rw [ih]
    simp [commaJoinTail, strAppend_assoc]

theorem propsLoop_eq (ps : List (String × String)) (body : String) :
    propsLoop ps body = body ++ specRenderProps ps := by
  cases ps with
  | nil => simp [propsLoop, specRenderProps, String.append_empty]
  | cons nv rest =>
    show (List.foldl _ ((if true then body else body ++ ",") ++ renderProp nv, false) rest).1 = _
    rw [if_pos rfl, propsLoop_false]
    simp [specRenderProps, strAppend_assoc]

theorem format_payload_eq (e : Event) :
    format_payload e = payloadHead e ++ specRenderProps e.properties ++ "\x7d\x7d" := by
  show propsLoop e.properties (payloadHead e) ++ "\x7d\x7d" = _
  rw [propsLoop_eq]

theorem placeholderInitial_eq_take (e : Event) :
    placeholderInitial e = String.mk (e.message_template.text.data.take 64) := by
  unfold placeholderInitial
  split
  · rfl
  · next h =>
    have hchars : e.message_template.text.data.length ≤ 64 := by
      have h1 := length_le_utf8ListLen e.message_template.text.data
      have h2 : utf8Len e.message_template.text ≤ 64 := by omega
      exact le_trans h1 h2
    rw [List.take_of_length_le hchars]

theorem formatEvent_eq (c : SeqCollector) (e : Event) :
    formatEvent c e =
      if utf8Len (format_payload e) > c.event_body_limit_bytes then
        if utf8Len (format_oversize_placeholder e) > c.event_body_limit_bytes then
          none
        else some (format_oversize_placeholder e)
      else some (format_payload e) := rfl

/-- C3: for the concrete event with timestamp 2014-07-08T09:10:11 UTC,
level Warning, template "The number is \x7bnumber\x7d" and single property
`number` mapped to the raw JSON fragment `42`, `format_payload` produces
exactly the fragment asserted by the source's own unit test: second-precision
ISO-8601 UTC timestamp with trailing Z, ordinal 2 rendered "Warning",
JSON-escaped template text, property value inserted unescaped. -/
theorem seq_example_payload :
    format_payload evC3 =
      "\x7b\"Timestamp\":\"2014-07-08T09:10:11Z\",\"Level\":\"Warning\",\"MessageTemplate\":\"The number is \x7bnumber\x7d\",\"Properties\":\x7b\"number\":42\x7d\x7d" := by
  decide

/-- C7 counterexample: for a server URL without a trailing slash the
constructor produces the endpoint by bare concatenation, not by
trailing-slash normalization: the claimed path with a separating slash is
not what `SeqCollector::new` builds. -/
theorem seq_endpoint_counterexample :
    (SeqCollector.new "http://example.com" none DEFAULT_EVENT_BODY_LIMIT_BYTES
        DEFAULT_BATCH_LIMIT_BYTES).endpoint = "http://example.comapi/events/raw/" ∧
    (SeqCollector.new "http://example.com" none DEFAULT_EVENT_BODY_LIMIT_BYTES
        DEFAULT_BATCH_LIMIT_BYTES).endpoint ≠ "http://example.com/api/events/raw/" := by
  decide

/-- C7 amended: the constructor appends "api/events/raw/" directly to the
given server URL with no trailing-slash normalization (so the POST path is
well-formed only when the caller's URL already ends in a slash), and the
default limits are 262144 bytes per event body and 10485760 bytes per
batch; the local convenience constructor uses the slash-terminated local
URL with those defaults. -/
theorem seq_endpoint_defaults :
    (∀ (server_url : String) (api_key : Option String) (ebl bl : Nat),
      (SeqCollector.new server_url api_key ebl bl).endpoint =
        server_url ++ "api/events/raw/") ∧
    DEFAULT_EVENT_BODY_LIMIT_BYTES = 262144 ∧
    DEFAULT_BATCH_LIMIT_BYTES = 10485760 ∧
    SeqCollector.new_local.endpoint = "http://localhost:5341/api/events/raw/" ∧
    SeqCollector.new_local.event_body_limit_bytes = 262144 ∧
    SeqCollector.new_local.batch_limit_bytes = 10485760 := by
  exact ⟨fun u k e b => rfl, by decide, by decide, by decide, by decide, by decide⟩

/-- C9: every severity value an event can carry maps to an index strictly
inside the fixed 6-entry level table, every ordinal of the rendering domain
0..5 — including the reserved fallback ordinal 0 — has a defined nonempty
display name, so the unchecked array index of `to_seq_level` has no failure
mode. -/
theorem seq_level_table_safety :
    (∀ l : LogLevel, l.toOrd < SEQ_LEVEL_NAMES.length ∧
      SEQ_LEVEL_NAMES[l.toOrd]? = some (to_seq_level l)) ∧
    (∀ n : Nat, n ≤ 5 → ∃ s, SEQ_LEVEL_NAMES[n]? = some s ∧ s ≠ "") ∧
    SEQ_LEVEL_NAMES[0]? = some "Fatal" := by
  refine ⟨?_, ?_, rfl⟩
  · intro l
    cases l <;> exact ⟨by decide, rfl⟩
  · intro n hn
    interval_cases n <;> exact ⟨_, rfl, by decide⟩

/-- C9 witness: the reserved fallback ordinal 0 has the defined name. -/
theorem seq_level_table_safety_witness :
    ∃ s, SEQ_LEVEL_NAMES[0]? = some s ∧ s ≠ "" :=
  seq_level_table_safety.2.1 0 (by decide)

/-- C10: the running counter equals the buffer's byte length plus the
reserved footer cost, initially, after every append, after every
flush-and-restart, and at every buffer state dispatch reaches; under this
invariant the flush comparison of the counter against the batch limit is
exactly the comparison of the would-be closed body's size against it. -/
theorem seq_count_invariant :
    countInv HEADER (HEADER_LEN + FOOTER_LEN) ∧
    (∀ next count delim payload, countInv next count →
      countInv (next ++ delim ++ payload)
        (count + utf8Len delim + utf8Len payload)) ∧
    (∀ payload, countInv (HEADER ++ payload)
      (HEADER_LEN + FOOTER_LEN + utf8Len payload)) ∧
    (∀ cur, countInv (renderOpen cur) (bodySize cur)) ∧
    (∀ next count delim payload limit, countInv next count →
      (count + utf8Len delim + utf8Len payload > limit ↔
        utf8Len (next ++ delim ++ payload ++ FOOTER) > limit)) := by
  refine ⟨?_, ?_, ?_, ?_, ?_⟩
  · show HEADER_LEN + FOOTER_LEN = utf8Len HEADER + FOOTER_LEN
    rw [utf8Len_HEADER]
  · intro next count delim payload h
    unfold countInv at h ⊢
    rw [utf8Len_append, utf8Len_append]
    omega
  · intro payload
    unfold countInv
    rw [utf8Len_append, utf8Len_HEADER]
    omega
  · intro cur
    unfold countInv bodySize renderBatch
    rw [utf8Len_append, utf8Len_FOOTER]
  · intro next count delim payload limit h
    unfold countInv at h
    rw [utf8Len_append, utf8Len_append, utf8Len_append, utf8Len_FOOTER]
    omega

/-- C10 witness: the invariant holds concretely after appending a
delimiter and a one-byte payload to the initial buffer. -/
theorem seq_count_invariant_witness :
    countInv (HEADER ++ "," ++ "x")
      (HEADER_LEN + FOOTER_LEN + utf8Len "," + utf8Len "x") :=
  seq_count_invariant.2.1 HEADER (HEADER_LEN + FOOTER_LEN) "," "x"
    seq_count_invariant.1

/-- C2 counterexample: `evBig` is oversize at the 250-byte body limit while
its placeholder fits, so the placeholder path is taken; yet the emitted
placeholder is not the fragment the claim describes, because the Rust
format string's doubled braces render the MessageTemplate field as the
literal text `(Event too large) \x7binitial\x7d...` instead of inlining the
truncated template text. -/
theorem seq_placeholder_counterexample :
    utf8Len (format_payload evBig) > cBig.event_body_limit_bytes ∧
    utf8Len (format_oversize_placeholder evBig) ≤ cBig.event_body_limit_bytes ∧
    formatEvent cBig evBig = some (format_oversize_placeholder evBig) ∧
    format_oversize_placeholder evBig ≠ placeholderSpecClaimed evBig := by
  refine ⟨?_, ?_, ?_, ?_⟩
  all_goals set_option maxRecDepth 4000 in decide

/-- C2 amended: for every event whose normal fragment exceeds the event
body limit while its placeholder does not, dispatch uses the placeholder,
whose MessageTemplate field is the fixed literal template text
`(Event too large) \x7binitial\x7d...` (its placeholder refers to the `initial`
property) and whose Properties object holds exactly the keys `target`
(the fixed identifier emit::collectors::seq) and `initial` (the
JSON-escaped first-64-characters truncation of the template text). -/
theorem seq_placeholder_format (c : SeqCollector) (e : Event)
    (h1 : utf8Len (format_payload e) > c.event_body_limit_bytes)
    (h2 : utf8Len (format_oversize_placeholder e) ≤ c.event_body_limit_bytes) :
    formatEvent c e = some (format_oversize_placeholder e) ∧
    format_oversize_placeholder e =
      "\x7b\"Timestamp\":\"" ++ formatTimestamp e.timestamp ++ "\",\"Level\":\"" ++
        to_seq_level e.level ++
        "\",\"MessageTemplate\":\"(Event too large) \x7binitial\x7d...\",\"Properties\":\x7b\"target\":\"emit::collectors::seq\",\"initial\":" ++
        jsonEscape (placeholderInitial e) ++ "\x7d\x7d" ∧
    placeholderInitial e = String.mk (e.message_template.text.data.take 64) := by
  refine ⟨?_, rfl, placeholderInitial_eq_take e⟩
  rw [formatEvent_eq, if_pos h1, if_neg (by omega)]

/-- C2 witness: the amended placeholder contract instantiated at `evBig`
under the 250-byte body limit. -/
theorem seq_placeholder_format_witness :
    formatEvent cBig evBig = some (format_oversize_placeholder evBig) ∧
    format_oversize_placeholder evBig =
      "\x7b\"Timestamp\":\"" ++ formatTimestamp evBig.timestamp ++ "\",\"Level\":\"" ++
        to_seq_level evBig.level ++
        "\",\"MessageTemplate\":\"(Event too large) \x7binitial\x7d...\",\"Properties\":\x7b\"target\":\"emit::collectors::seq\",\"initial\":" ++
        jsonEscape (placeholderInitial evBig) ++ "\x7d\x7d" ∧
    placeholderInitial evBig = String.mk (evBig.message_template.text.data.take 64) :=
  seq_placeholder_format cBig evBig
    (by set_option maxRecDepth 4000 in decide)
    (by set_option maxRecDepth 4000 in decide)

/-- C8: the Properties object of a formatted fragment renders the event's
property mapping in its iteration order (the wire order is the list order),
and under the BTreeMap representation invariant — keys strictly increasing —
the emitted names are in lexicographic order, each appearing exactly once. -/
theorem seq_property_order (e : Event)
    (h : e.properties.Pairwise (fun a b => a.1 < b.1)) :
    format_payload e = payloadHead e ++ specRenderProps e.properties ++ "\x7d\x7d" ∧
    (e.properties.map Prod.fst).Pairwise (· < ·) ∧
    (e.properties.map Prod.fst).Nodup := by
  refine ⟨format_payload_eq e, ?_, ?_⟩
  · rw [List.pairwise_map]
    exact h
  · show (e.properties.map Prod.fst).Pairwise (· ≠ ·)
    rw [List.pairwise_map]
    exact h.imp ne_of_lt

/-- C8 witness: the property order contract instantiated at the concrete
test event. -/
theorem seq_property_order_witness :
    format_payload evC3 = payloadHead evC3 ++ specRenderProps evC3.properties ++ "\x7d\x7d" ∧
    (evC3.properties.map Prod.fst).Pairwise (· < ·) ∧
    (evC3.properties.map Prod.fst).Nodup :=
  seq_property_order evC3 (by simp [evC3])

/-- C5: an event whose normal fragment and placeholder both exceed the
event body limit contributes nothing to any batch: the formatter drops it,
dispatch on any surrounding input behaves exactly as if the event were
absent (no error is surfaced and later events are still processed), and
this is the only condition under which an event is dropped. -/
theorem seq_oversize_drop (c : SeqCollector) (e : Event)
    (h1 : utf8Len (format_payload e) > c.event_body_limit_bytes)
    (h2 : utf8Len (format_oversize_placeholder e) > c.event_body_limit_bytes) :
    formatEvent c e = none ∧
    (∀ (tr : Nat → Bool) (pre post : List Event),
      dispatch c tr (pre ++ e :: post) = dispatch c tr (pre ++ post)) ∧
    (∀ e2 : Event, formatEvent c e2 = none →
      utf8Len (format_payload e2) > c.event_body_limit_bytes ∧
      utf8Len (format_oversize_placeholder e2) > c.event_body_limit_bytes) := by
  have hnone : formatEvent c e = none := by
    rw [formatEvent_eq, if_pos h1, if_pos h2]
  refine ⟨hnone, ?_, ?_⟩
  · intro tr pre post
    rw [dispatch_eq_outcome, dispatch_eq_outcome]
    have hpl : payloadsOf c (pre ++ e :: post) = payloadsOf c (pre ++ post) := by
      simp [payloadsOf, List.filterMap_append, List.filterMap_cons, hnone]
    rw [hpl]
  · intro e2 h
    rw [formatEvent_eq] at h
    by_cases hp : utf8Len (format_payload e2) > c.event_body_limit_bytes
    · refine ⟨hp, ?_⟩
      by_cases hq : utf8Len (format_oversize_placeholder e2) > c.event_body_limit_bytes
      · exact hq
      · rw [if_pos hp, if_neg hq] at h
        exact absurd h (by simp)
    · rw [if_neg hp] at h
      exact absurd h (by simp)

/-- C5 witness: under the 150-byte body limit both renderings of `evBig`
are oversize, the event is dropped, and dispatch ignores it. -/
theorem seq_oversize_drop_witness :
    formatEvent cDrop evBig = none ∧
    (∀ (tr : Nat → Bool) (pre post : List Event),
      dispatch cDrop tr (pre ++ evBig :: post) = dispatch cDrop tr (pre ++ post)) ∧
    (∀ e2 : Event, formatEvent cDrop e2 = none →
      utf8Len (format_payload e2) > cDrop.event_body_limit_bytes ∧
      utf8Len (format_oversize_placeholder e2) > cDrop.event_body_limit_bytes) :=
  seq_oversize_drop cDrop evBig
    (by set_option maxRecDepth 4000 in decide)
    (by set_option maxRecDepth 4000 in decide)

/-- C6: when the fragment stream is empty — the input is empty or every
event was dropped as oversize — dispatch still attempts exactly one send
whose body is the empty-array batch; with a healthy transport the bodies
sent are exactly the batches formed, always at least one send; and when the
input yields at least one fragment every body passed to the transport holds
at least one fragment. -/
theorem seq_final_flush (c : SeqCollector) (tr : Nat → Bool) (evs : List Event) :
    (payloadsOf c evs = [] → (dispatch c tr evs).1 = ["\x7b\"Events\":[]\x7d"]) ∧
    (dispatch c (fun _ => true) evs).1 = allBatches c evs ∧
    1 ≤ (allBatches c evs).length ∧
    (payloadsOf c evs ≠ [] → ∀ body ∈ (dispatch c tr evs).1,
      ∃ frags, frags ≠ [] ∧ body = renderBatch frags) := by
  refine ⟨?_, ?_, ?_, ?_⟩
  · intro h
    rw [dispatch_eq_outcome, h, batchFragments_nil, outcome_single]
    have hrb : renderBatch ([] : List String) = "\x7b\"Events\":[]\x7d" := by decide
    simp [hrb]
  · rw [dispatch_eq_outcome c (fun _ => true) evs,
      outcome_all_true _ _ 0 [] (fun i _ => rfl)]
    simp [allBatches]
  · have hne := batchAcc_ne_nil c.batch_limit_bytes (payloadsOf c evs) []
    have hlen : 0 < (batchFragments c.batch_limit_bytes (payloadsOf c evs)).length :=
      List.length_pos.2 hne
    simp only [allBatches, List.length_map]
    omega
  · intro h body hb
    rw [dispatch_eq_outcome] at hb
    rcases outcome_mem tr _ 0 [] body hb with h1 | ⟨b, hbm, rfl⟩
    · simp at h1
    · exact ⟨b, batchFragments_mem_ne_nil _ _ h b hbm, rfl⟩

/-- C6 witness: a one-event input whose only event is dropped still
produces exactly one send of the empty-array batch body. -/
theorem seq_final_flush_witness :
    (dispatch cDrop (fun _ => true) [evBig]).1 = ["\x7b\"Events\":[]\x7d"] :=
  (seq_final_flush cDrop (fun _ => true) [evBig]).1
    (by set_option maxRecDepth 4000 in decide)

/-- C4: dispatch succeeds exactly when every send it attempts succeeds;
with a fully healthy transport it sends every formed batch; and when the
first transport failure happens at batch j, dispatch returns failure having
attempted exactly the batches up to and including j — earlier batches stay
delivered and later ones are never sent. -/
theorem seq_dispatch_result_contract (c : SeqCollector) (tr : Nat → Bool)
    (evs : List Event) :
    ((dispatch c tr evs).2 = true ↔
      (∀ i, i < (dispatch c tr evs).1.length → tr i = true)) ∧
    ((∀ i, i < (allBatches c evs).length → tr i = true) →
      dispatch c tr evs = (allBatches c evs, true)) ∧
    (∀ j, j < (allBatches c evs).length → tr j = false →
      (∀ i, i < j → tr i = true) →
      dispatch c tr evs = ((allBatches c evs).take (j + 1), false)) := by
  have hdisp := dispatch_eq_outcome c tr evs
  have hlen : (allBatches c evs).length =
      (batchFragments c.batch_limit_bytes (payloadsOf c evs)).length := by
    simp [allBatches]
  have hall : (∀ i, i < (allBatches c evs).length → tr i = true) →
      dispatch c tr evs = (allBatches c evs, true) := by
    intro h
    rw [hdisp, outcome_all_true tr _ 0 []
      (fun i hi => by simpa using h i (by omega))]
    simp [allBatches]
  have hfail : ∀ j, j < (allBatches c evs).length → tr j = false →
      (∀ i, i < j → tr i = true) →
      dispatch c tr evs = ((allBatches c evs).take (j + 1), false) := by
    intro j hj hf hp
    rw [hdisp, outcome_first_false tr _ 0 [] j (by omega)
      (by simpa using hf) (fun i hi => by simpa using hp i hi)]
    simp [allBatches]
  refine ⟨?_, hall, hfail⟩
  by_cases h : ∀ i, i < (allBatches c evs).length → tr i = true
  · have hd := hall h
    rw [hd]
    simp only [true_iff]
    intro i hi
    exact h i hi
  · have hex : ∃ i, i < (allBatches c evs).length ∧ tr i = false := by
      push_neg at h
      rcases h with ⟨i, hi, hti⟩
      exact ⟨i, hi, by simpa using hti⟩
    have hj := Nat.find_spec hex
    have hjmin := fun m (hm : m < Nat.find hex) => Nat.find_min hex hm
    have hpre : ∀ i, i < Nat.find hex → tr i = true := by
      intro i hi
      have hilen : i < (allBatches c evs).length := lt_trans hi hj.1
      rcases hti : tr i with _ | _
      · exact absurd ⟨hilen, hti⟩ (hjmin i hi)
      · rfl
    have hd := hfail (Nat.find hex) hj.1 hj.2 hpre
    rw [hd]
    constructor
    · intro hh
      exact absurd hh (by simp)
    · intro hAll
      have hlt : Nat.find hex < ((allBatches c evs).take (Nat.find hex + 1)).length := by
        rw [List.length_take]
        omega
      exact absurd (hAll (Nat.find hex) hlt) (by simp [hj.2])

/-- C4 witness: with a transport that fails immediately, a two-batch input
yields exactly one attempted send and a failure result. -/
theorem seq_dispatch_result_contract_witness :
    dispatch cSplit (fun _ => false) [evC3, evC3] =
      ((allBatches cSplit [evC3, evC3]).take 1, false) :=
  (seq_dispatch_result_contract cSplit (fun _ => false) [evC3, evC3]).2.2 0
    (by set_option maxRecDepth 4000 in decide) rfl
    (fun i hi => absurd hi (Nat.not_lt_zero i))

/-- C1 counterexample: with a 12-byte batch limit and an empty input the
single body passed to the transport is the 13-byte empty-array batch, which
exceeds the limit while containing zero formatted fragments — not exactly
one — so the claimed exception does not cover it. -/
theorem seq_batch_bound_counterexample :
    dispatch cTiny (fun _ => true) [] = (["\x7b\"Events\":[]\x7d"], true) ∧
    utf8Len "\x7b\"Events\":[]\x7d" = 13 ∧
    cTiny.batch_limit_bytes = 12 ∧
    batchFragments cTiny.batch_limit_bytes (payloadsOf cTiny []) = [[]] := by
  decide

/-- C1 amended: every body dispatch passes to the transport renders one of
the batches the batcher forms, every batch holding two or more fragments
fits the batch limit (so only batches with at most one fragment — a single
oversized fragment, or the degenerate empty final batch — may exceed it),
and the batches partition the fragment stream exactly: no fragment is
dropped or duplicated by batching. -/
theorem seq_batch_size_bound (c : SeqCollector) (tr : Nat → Bool)
    (evs : List Event) :
    (∀ body ∈ (dispatch c tr evs).1, ∃ frags,
      frags ∈ batchFragments c.batch_limit_bytes (payloadsOf c evs) ∧
      body = renderBatch frags ∧
      (2 ≤ frags.length → utf8Len body ≤ c.batch_limit_bytes)) ∧
    (batchFragments c.batch_limit_bytes (payloadsOf c evs)).flatten =
      payloadsOf c evs := by
  constructor
  · intro body hb
    rw [dispatch_eq_outcome] at hb
    rcases outcome_mem tr _ 0 [] body hb with h1 | ⟨b, hbm, rfl⟩
    · simp at h1
    · refine ⟨b, hbm, rfl, fun h2 => ?_⟩
      have hbound := batchAcc_size_bound c.batch_limit_bytes (payloadsOf c evs) []
        (by intro hh; simp at hh) b hbm h2
      simpa [bodySize] using hbound
  · have hfl := batchAcc_flatten c.batch_limit_bytes (payloadsOf c evs) []
    simpa [batchFragments] using hfl

/-- C1 witness: in the two-send split of two `evC3` fragments under the
150-byte batch limit, the first attempted body renders a formed batch and
satisfies the size bound whenever it has two or more fragments. -/
theorem seq_batch_size_bound_witness :
    ∃ frags,
      frags ∈ batchFragments cSplit.batch_limit_bytes (payloadsOf cSplit [evC3, evC3]) ∧
      renderBatch [format_payload evC3] = renderBatch frags ∧
      (2 ≤ frags.length →
        utf8Len (renderBatch [format_payload evC3]) ≤ cSplit.batch_limit_bytes) :=
  (seq_batch_size_bound cSplit (fun _ => true) [evC3, evC3]).1
    (renderBatch [format_payload evC3])
    (by set_option maxRecDepth 4000 in decide)

end Emit
